import Mathlib

/-!
Verification of the resumable image-upload server in `MainServer.py`
(GroundLinkMonitorServer).  The Python code is shallowly embedded: byte
streams become lists of naturals plus an end-of-stream behaviour, the
per-upload on-disk state (part file, done marker, final artifacts) becomes an
explicit record, and the connection handler becomes a pure function from the
incoming stream and disk state to the wire writes and the resulting state.
Claims about two simultaneous connections are settled over a small-step
interleaving relation with an explicit per-upload lock.
-/

/-- Bytes on the wire, modelled as natural numbers (only values `< 256` occur
in real traffic; nothing below depends on the bound). -/
abbrev Byte := Nat

/-- Python strings are modelled as lists of characters so that the path
manipulations of `os.path` can be reasoned about elementwise. -/
abbrev PyStr := List Char

/-- Behaviour of the incoming TCP stream once its buffered data runs out:
`closed` models the peer closing the connection (a pending `readexactly`
raises `asyncio.IncompleteReadError`), `stalled` models a peer that stops
sending without closing (a pending read blocks; under `asyncio.wait_for` it
is cancelled by the idle timeout). -/
inductive StreamEnd where
  | closed
  | stalled
deriving DecidableEq

/-- An `asyncio.StreamReader` together with all the data it will ever
deliver and what happens after that data is exhausted. -/
structure NetStream where
  data : List Byte
  fin : StreamEnd
deriving DecidableEq

/-- Result of one `readexactly` call: the requested bytes plus the remaining
stream, a short read on peer close (carrying `e.partial`, the bytes read so
far, which `asyncio` attaches to `IncompleteReadError`), or a read that never
completes (peer stalled). -/
inductive ReadResult where
  | ok (chunk : List Byte) (rest : NetStream)
  | incomplete (leftover : List Byte)
  | hang
deriving DecidableEq

/-- Model of `await reader.readexactly(n)`. -/
def readexactly (s : NetStream) (n : Nat) : ReadResult :=
  if n ≤ s.data.length then .ok (s.data.take n) ⟨s.data.drop n, s.fin⟩
  else
    match s.fin with
    | .closed => .incomplete s.data
    | .stalled => .hang

/-- Python exception classes appearing in `MainServer.py`'s control flow. -/
inductive ExcClass where
  | connectionError
  | incompleteReadError
  | unicodeDecodeError
  | fileNotFoundError
deriving DecidableEq

/-- A raised Python exception: its class and its message.  Both
`ConnectionError`s raised by `FileReceiver.receive_exactly_to_file` share the
class and differ only in the message. -/
structure PyExc where
  cls : ExcClass
  msg : List Char
deriving DecidableEq

/-- Message of the `ConnectionError` raised on `IncompleteReadError`
(peer closed mid-body). -/
def msgDisconnect : List Char := String.toList "Соединение разорвано: клиент отключился"

/-- Message of the `ConnectionError` raised on `asyncio.TimeoutError`; the
source interpolates `self.idle_timeout` into the f-string, modelled by the
parameter `tmo`. -/
def msgIdle (tmo : List Char) : List Char :=
  String.toList "Таймаут при приёме файла (нет данных > " ++ tmo ++ String.toList "s)"

/-- The exception raised when the client disconnects mid-body. -/
def excDisconnect : PyExc := ⟨.connectionError, msgDisconnect⟩

/-- The exception raised when the idle timeout expires mid-body. -/
def excIdle (tmo : List Char) : PyExc := ⟨.connectionError, msgIdle tmo⟩

/-- Outcome of `FileReceiver.receive_exactly_to_file`: the file contents
after the call (the file object is an append-position handle, modelled by the
list of bytes written so far), the remaining stream, and the exception raised
if any. -/
structure RecvOut where
  file : List Byte
  rest : NetStream
  err : Option PyExc
deriving DecidableEq

/-- Loop of `FileReceiver.receive_exactly_to_file` with an explicit
iteration budget: each pass through the Python `while remaining > 0` loop
consumes at least one byte of `remaining` whenever the chunk size is
positive, so a budget of `size` iterations (supplied by the wrapper below)
always suffices and the budget-exhausted branch is dead for `0 < cs`; it is
also dead code in the server, whose `chunk_size` is 4 MiB.  On a successful
chunk the bytes are appended and the loop continues; on
`IncompleteReadError` the partial chunk is written before the
`ConnectionError` is raised; on timeout nothing is written. -/
def receiveAux (cs : Nat) (tmo : List Char) : Nat → NetStream → List Byte → Nat → RecvOut
  | _, s, file, 0 => ⟨file, s, none⟩
  | 0, s, file, _ + 1 => ⟨file, s, none⟩
  | fuel + 1, s, file, szp + 1 =>
    match readexactly s (min cs (szp + 1)) with
    | .ok chunk rest =>
        receiveAux cs tmo fuel rest (file ++ chunk) (szp + 1 - min cs (szp + 1))
    | .incomplete leftover => ⟨file ++ leftover, s, some excDisconnect⟩
    | .hang => ⟨file, s, some (excIdle tmo)⟩

/-- Model of `FileReceiver.receive_exactly_to_file(reader, file_obj, size)`
with chunk size `cs` and idle timeout rendered as `tmo`. -/
def receive_exactly_to_file (cs : Nat) (tmo : List Char) (s : NetStream)
    (file : List Byte) (size : Nat) : RecvOut :=
  receiveAux cs tmo size s file size

theorem receiveAux_ok (cs : Nat) (tmo : List Char) :
    ∀ (fuel size : Nat) (d : List Byte) (e : StreamEnd) (file : List Byte),
      0 < cs → size ≤ fuel → size ≤ d.length →
      receiveAux cs tmo fuel ⟨d, e⟩ file size =
        ⟨file ++ d.take size, ⟨d.drop size, e⟩, none⟩ := by
  intro fuel
  induction fuel with
  | zero =>
    intro size d e file _ hf _
    rw [Nat.le_zero.mp hf]
    simp [receiveAux]
  | succ fuel ih =>
    intro size d e file hcs hf hd
    match size with
    | 0 => simp [receiveAux]
    | szp + 1 =>
      have hminpos : 0 < min cs (szp + 1) := lt_min_iff.mpr ⟨hcs, Nat.succ_pos _⟩
      have hmin : min cs (szp + 1) ≤ d.length := le_trans (min_le_right _ _) hd
      have hmsz : min cs (szp + 1) ≤ szp + 1 := min_le_right _ _
      rw [receiveAux, readexactly, if_pos hmin]
      dsimp only
      rw [ih (szp + 1 - min cs (szp + 1)) (d.drop (min cs (szp + 1))) e
        (file ++ d.take (min cs (szp + 1))) hcs (by omega)
        (by simp only [List.length_drop]; omega)]
      have hsplit : min cs (szp + 1) + (szp + 1 - min cs (szp + 1)) = szp + 1 := by omega
      simp only [RecvOut.mk.injEq, NetStream.mk.injEq]
      refine ⟨?_, ⟨?_, trivial⟩, trivial⟩
      · rw [List.append_assoc, ← List.take_add, hsplit]
      · rw [List.drop_drop, hsplit]

/-- When the stream holds at least `size` bytes the receiver copies exactly
`size` bytes into the file and consumes exactly `size` bytes of the stream,
raising nothing. -/
theorem receive_ok (cs : Nat) (tmo : List Char) (size : Nat) (d : List Byte)
    (e : StreamEnd) (file : List Byte) (hcs : 0 < cs) (hd : size ≤ d.length) :
    receive_exactly_to_file cs tmo ⟨d, e⟩ file size =
      ⟨file ++ d.take size, ⟨d.drop size, e⟩, none⟩ :=
  receiveAux_ok cs tmo size size d e file hcs le_rfl hd

theorem receiveAux_closed (cs : Nat) (tmo : List Char) :
    ∀ (fuel size : Nat) (d : List Byte) (file : List Byte),
      0 < cs → size ≤ fuel → d.length < size →
      (receiveAux cs tmo fuel ⟨d, .closed⟩ file size).file = file ++ d ∧
      (receiveAux cs tmo fuel ⟨d, .closed⟩ file size).err = some excDisconnect := by
  intro fuel
  induction fuel with
  | zero =>
    intro size d file _ hf hlen
    omega
  | succ fuel ih =>
    intro size d file hcs hf hlen
    match size with
    | 0 => omega
    | szp + 1 =>
      have hminpos : 0 < min cs (szp + 1) := lt_min_iff.mpr ⟨hcs, Nat.succ_pos _⟩
      have hmsz : min cs (szp + 1) ≤ szp + 1 := min_le_right _ _
      rw [receiveAux, readexactly]
      by_cases hm : min cs (szp + 1) ≤ d.length
      · rw [if_pos hm]
        dsimp only
        have h2 : (d.drop (min cs (szp + 1))).length < szp + 1 - min cs (szp + 1) := by
          simp only [List.length_drop]
          omega
        refine ⟨?_, (ih _ _ _ hcs (by omega) h2).2⟩
        rw [(ih _ _ _ hcs (by omega) h2).1, List.append_assoc, List.take_append_drop]
      · rw [if_neg hm]
        dsimp only
        exact ⟨rfl, rfl⟩

/-- When the peer closes the stream before `size` bytes arrive, every byte
the stream delivered is flushed to the file (complete chunks plus the
partial chunk from the short read) before the disconnect error surfaces. -/
theorem receive_closed (cs : Nat) (tmo : List Char) (size : Nat) (d : List Byte)
    (file : List Byte) (hcs : 0 < cs) (hlen : d.length < size) :
    (receive_exactly_to_file cs tmo ⟨d, .closed⟩ file size).file = file ++ d ∧
    (receive_exactly_to_file cs tmo ⟨d, .closed⟩ file size).err = some excDisconnect :=
  receiveAux_closed cs tmo size size d file hcs le_rfl hlen

theorem receiveAux_stalled (cs : Nat) (tmo : List Char) :
    ∀ (fuel size : Nat) (d : List Byte) (file : List Byte),
      0 < cs → size ≤ fuel → d.length < size →
      (receiveAux cs tmo fuel ⟨d, .stalled⟩ file size).file
          = file ++ d.take (cs * (d.length / cs)) ∧
      (receiveAux cs tmo fuel ⟨d, .stalled⟩ file size).err = some (excIdle tmo) := by
  intro fuel
  induction fuel with
  | zero =>
    intro size d file _ hf hlen
    omega
  | succ fuel ih =>
    intro size d file hcs hf hlen
    match size with
    | 0 => omega
    | szp + 1 =>
      rw [receiveAux, readexactly]
      by_cases hca : cs ≤ d.length
      · have hm : min cs (szp + 1) ≤ d.length := le_trans (min_le_left _ _) hca
        have hmincs : min cs (szp + 1) = cs := min_eq_left (by omega)
        rw [if_pos hm]
        dsimp only
        rw [hmincs]
        have h2 : (d.drop cs).length < szp + 1 - cs := by
          simp only [List.length_drop]
          omega
        refine ⟨?_, (ih _ _ _ hcs (by omega) h2).2⟩
        rw [(ih _ _ _ hcs (by omega) h2).1, List.append_assoc]
        congr 1
        rw [List.length_drop]
        have hdiv : cs * (d.length / cs) = cs + cs * ((d.length - cs) / cs) := by
          rw [Nat.div_eq_sub_div hcs hca]
          ring
        rw [hdiv, List.take_add]
      · have hm : ¬ min cs (szp + 1) ≤ d.length := by
          rcases Nat.le_total cs (szp + 1) with h | h
          · rw [min_eq_left h]; omega
          · rw [min_eq_right h]; omega
        rw [if_neg hm]
        dsimp only
        have hdz : d.length / cs = 0 := Nat.div_eq_of_lt (by omega)
        rw [hdz]
        simp

/-- When the peer stalls before `size` bytes arrive, only the chunks that
completed in full are in the file: the consumed prefix is the largest
multiple of the chunk size that the stream could cover. -/
theorem receive_stalled (cs : Nat) (tmo : List Char) (size : Nat) (d : List Byte)
    (file : List Byte) (hcs : 0 < cs) (hlen : d.length < size) :
    (receive_exactly_to_file cs tmo ⟨d, .stalled⟩ file size).file
        = file ++ d.take (cs * (d.length / cs)) ∧
    (receive_exactly_to_file cs tmo ⟨d, .stalled⟩ file size).err = some (excIdle tmo) :=
  receiveAux_stalled cs tmo size size d file hcs le_rfl hlen

/-- C4: if the stream closes unexpectedly mid-transfer, every byte already
read (including the partial chunk carried by the short read) is written to
the file before the incomplete-transfer error is raised, so the file holds
exactly the bytes received — none lost, none duplicated — and its length is
the correct offset for a later resume. -/
theorem c4_close_flushes_partial_chunk (cs : Nat) (tmo : List Char) (size : Nat)
    (d : List Byte) (file : List Byte) (hcs : 0 < cs) (hl : d.length < size) :
    (receive_exactly_to_file cs tmo ⟨d, .closed⟩ file size).file = file ++ d ∧
    (receive_exactly_to_file cs tmo ⟨d, .closed⟩ file size).err = some excDisconnect ∧
    (receive_exactly_to_file cs tmo ⟨d, .closed⟩ file size).file.length
        = file.length + d.length := by
  obtain ⟨h1, h2⟩ := receive_closed cs tmo size d file hcs hl
  exact ⟨h1, h2, by rw [h1, List.length_append]⟩

/-- Witness for `c4_close_flushes_partial_chunk` at a concrete interrupted
transfer: 3 of 5 declared bytes arrive, all 3 end up in the file. -/
theorem c4_close_flushes_partial_chunk_witness :
    0 < 2 ∧ ([1, 2, 3] : List Byte).length < 5 ∧
    ((receive_exactly_to_file 2 (String.toList "60.0") ⟨[1, 2, 3], .closed⟩ [9] 5).file
        = [9] ++ [1, 2, 3] ∧
     (receive_exactly_to_file 2 (String.toList "60.0") ⟨[1, 2, 3], .closed⟩ [9] 5).err
        = some excDisconnect ∧
     (receive_exactly_to_file 2 (String.toList "60.0") ⟨[1, 2, 3], .closed⟩ [9] 5).file.length
        = ([9] : List Byte).length + ([1, 2, 3] : List Byte).length) :=
  ⟨by decide, by decide,
    c4_close_flushes_partial_chunk 2 (String.toList "60.0") 5 [1, 2, 3] [9]
      (by decide) (by decide)⟩

/-- C8: exceeding the idle timeout mid-body raises an error value distinct
from the one raised on a clean peer close, so the two failure conditions are
distinguishable by the caller (both are `ConnectionError`s in the source;
they differ in message, modelled here by inequality of the raised values). -/
theorem c8_stall_distinct_from_close (cs : Nat) (tmo : List Char) (size : Nat)
    (d : List Byte) (file : List Byte) (hcs : 0 < cs) (hl : d.length < size) :
    (receive_exactly_to_file cs tmo ⟨d, .stalled⟩ file size).err = some (excIdle tmo) ∧
    (receive_exactly_to_file cs tmo ⟨d, .closed⟩ file size).err = some excDisconnect ∧
    excIdle tmo ≠ excDisconnect := by
  refine ⟨(receive_stalled cs tmo size d file hcs hl).2,
          (receive_closed cs tmo size d file hcs hl).2, ?_⟩
  intro h
  have h1 : (msgIdle tmo).head? = msgDisconnect.head? :=
    congrArg (fun e => e.msg.head?) h
  rw [show (msgIdle tmo).head? = some 'Т' from rfl,
      show msgDisconnect.head? = some 'С' from rfl] at h1
  exact absurd h1 (by decide)

/-- Witness for `c8_stall_distinct_from_close` at a concrete stalled and a
concrete closed transfer. -/
theorem c8_stall_distinct_from_close_witness :
    0 < 2 ∧ ([1, 2, 3] : List Byte).length < 5 ∧
    ((receive_exactly_to_file 2 (String.toList "60.0") ⟨[1, 2, 3], .stalled⟩ [] 5).err
        = some (excIdle (String.toList "60.0")) ∧
     (receive_exactly_to_file 2 (String.toList "60.0") ⟨[1, 2, 3], .closed⟩ [] 5).err
        = some excDisconnect ∧
     excIdle (String.toList "60.0") ≠ excDisconnect) :=
  ⟨by decide, by decide,
    c8_stall_distinct_from_close 2 (String.toList "60.0") 5 [1, 2, 3] []
      (by decide) (by decide)⟩

/-- C10: when the idle timeout aborts a chunk read, nothing of the in-flight
chunk reaches the file: the file grows only by chunks that completed in full
(a multiple of the chunk size), so the next resume restarts the stalled
chunk from its beginning. -/
theorem c10_timeout_discards_inflight_chunk (cs : Nat) (tmo : List Char) (size : Nat)
    (d : List Byte) (file : List Byte) (hcs : 0 < cs) (hl : d.length < size) :
    (receive_exactly_to_file cs tmo ⟨d, .stalled⟩ file size).file
        = file ++ d.take (cs * (d.length / cs)) ∧
    (receive_exactly_to_file cs tmo ⟨d, .stalled⟩ file size).err = some (excIdle tmo) ∧
    cs ∣ ((receive_exactly_to_file cs tmo ⟨d, .stalled⟩ file size).file.length
            - file.length) := by
  obtain ⟨h1, h2⟩ := receive_stalled cs tmo size d file hcs hl
  refine ⟨h1, h2, ?_⟩
  rw [h1, List.length_append, List.length_take]
  have hle : cs * (d.length / cs) ≤ d.length := by
    rw [Nat.mul_comm]
    exact Nat.div_mul_le_self d.length cs
  rw [min_eq_left hle, Nat.add_sub_cancel_left]
  exact Dvd.intro (d.length / cs) rfl

/-- Witness for `c10_timeout_discards_inflight_chunk`: 3 of 5 declared bytes
arrive before the stall with chunk size 2 — only the first full chunk of 2
bytes is flushed, the odd third byte is not. -/
theorem c10_timeout_discards_inflight_chunk_witness :
    0 < 2 ∧ ([1, 2, 3] : List Byte).length < 5 ∧
    ((receive_exactly_to_file 2 (String.toList "60.0") ⟨[1, 2, 3], .stalled⟩ [] 5).file
        = [] ++ ([1, 2, 3] : List Byte).take (2 * (([1, 2, 3] : List Byte).length / 2)) ∧
     (receive_exactly_to_file 2 (String.toList "60.0") ⟨[1, 2, 3], .stalled⟩ [] 5).err
        = some (excIdle (String.toList "60.0")) ∧
     2 ∣ ((receive_exactly_to_file 2 (String.toList "60.0") ⟨[1, 2, 3], .stalled⟩ [] 5).file.length
            - ([] : List Byte).length)) :=
  ⟨by decide, by decide,
    c10_timeout_discards_inflight_chunk 2 (String.toList "60.0") 5 [1, 2, 3] []
      (by decide) (by decide)⟩

/-- Model of `os.path.join(a, b)` for POSIX (`MainServer.py` runs on Linux):
an absolute second argument discards the first, otherwise a single `/` sits
between them unless the first is empty or already ends in `/`. -/
def pyJoin (a b : PyStr) : PyStr :=
  if b.head? = some '/' then b
  else if a = [] ∨ a.getLast? = some '/' then a ++ b
  else a ++ '/' :: b

/-- Model of `os.path.basename` for POSIX: the part after the last `/`. -/
def basename (p : PyStr) : PyStr :=
  (p.reverse.takeWhile (fun c => c ≠ '/')).reverse

/-- Model of Python `str.replace(old, new)` for a one-character pattern. -/
def replaceChar (old new : Char) (s : PyStr) : PyStr :=
  s.map (fun c => if c = old then new else c)

/-- Model of `UploadSession.safe_filename`: basename, then `/` and `\`
replaced by `_`. -/
def safe_filename (name : PyStr) : PyStr :=
  replaceChar '\\' '_' (replaceChar '/' '_' (basename name))

/-- Model of the `UploadSession` dataclass. -/
structure UploadSession where
  client_name : PyStr
  filename : PyStr
  upload_id : PyStr
  file_size : Nat
  client_dir : PyStr
  part_path : PyStr
  done_path : PyStr
deriving DecidableEq

/-- Model of `UploadSession.from_header`. -/
def UploadSession.from_header (images_dir client_name filename upload_id : PyStr)
    (file_size : Nat) : UploadSession :=
  let client_dir := pyJoin images_dir client_name
  let safe := safe_filename filename
  { client_name := client_name
    filename := safe
    upload_id := upload_id
    file_size := file_size
    client_dir := client_dir
    part_path := pyJoin client_dir (upload_id ++ '_' :: safe ++ ['.', 'p', 'a', 'r', 't'])
    done_path := pyJoin client_dir (upload_id ++ ['.', 'd', 'o', 'n', 'e']) }

/-- Decides whether `p` is a direct entry of directory `dir`: it must be
`dir/` followed by a nonempty name containing no separator and naming
neither the directory itself (`.`) nor its parent (`..`). -/
def isInsideDir (dir p : PyStr) : Bool :=
  (dir ++ ['/']).isPrefixOf p &&
    (let name := p.drop (dir.length + 1)
     decide (name ≠ [] ∧ '/' ∉ name ∧ name ≠ ['.'] ∧ name ≠ ['.', '.']))

/-- Sanitized filenames never contain a separator. -/
theorem safe_filename_no_slash (name : PyStr) : '/' ∉ safe_filename name := by
  intro hmem
  simp only [safe_filename, replaceChar, List.map_map, List.mem_map,
    Function.comp] at hmem
  obtain ⟨a, _, ha⟩ := hmem
  by_cases h1 : a = '/'
  · subst h1; simp at ha
  · rw [if_neg h1] at ha
    by_cases h2 : a = '\\'
    · subst h2; simp at ha
    · rw [if_neg h2] at ha
      exact h1 ha

/-- A list is a `isPrefixOf` any extension of itself. -/
theorem isPrefixOf_append_self (x y : PyStr) : x.isPrefixOf (x ++ y) = true := by
  induction x with
  | nil => simp [List.isPrefixOf]
  | cons c cs ih => simp [List.isPrefixOf, ih]

/-- Joining a relative name onto a nonempty directory that does not end in a
separator inserts exactly one separator. -/
theorem pyJoin_rel (a b : PyStr) (hb : b.head? ≠ some '/') (ha : a ≠ [])
    (hal : a.getLast? ≠ some '/') : pyJoin a b = a ++ '/' :: b := by
  rw [pyJoin, if_neg hb, if_neg (by
    intro h
    rcases h with h | h
    · exact ha h
    · exact hal h)]

/-- A name with no separator that is neither empty nor `.` nor `..` is a
direct entry of the directory it is joined onto. -/
theorem isInsideDir_of_name (dir name : PyStr) (h1 : name ≠ []) (h2 : '/' ∉ name)
    (h3 : name ≠ ['.']) (h4 : name ≠ ['.', '.']) :
    isInsideDir dir (dir ++ '/' :: name) = true := by
  have hx : dir ++ '/' :: name = (dir ++ ['/']) ++ name := by simp
  rw [isInsideDir, hx]
  rw [show dir.length + 1 = (dir ++ ['/']).length by simp]
  rw [List.drop_left]
  simp only [Bool.and_eq_true, decide_eq_true_eq]
  exact ⟨isPrefixOf_append_self _ _, h1, h2, h3, h4⟩

/-- C2 (amended): if the upload id contains no separator and the client
directory `root/client_name` is nonempty and does not end in a separator,
then the part-file and done-marker paths built by `from_header` are direct
entries inside the client directory — the sanitized filename cannot break
out because sanitization strips separators. -/
theorem c2_session_paths_inside_client_dir
    (images_dir client_name filename upload_id : PyStr) (file_size : Nat)
    (huid : '/' ∉ upload_id)
    (hcd : pyJoin images_dir client_name ≠ [])
    (hsl : (pyJoin images_dir client_name).getLast? ≠ some '/') :
    isInsideDir (pyJoin images_dir client_name)
      (UploadSession.from_header images_dir client_name filename upload_id
        file_size).part_path = true ∧
    isInsideDir (pyJoin images_dir client_name)
      (UploadSession.from_header images_dir client_name filename upload_id
        file_size).done_path = true := by
  set cd := pyJoin images_dir client_name with hcddef
  set safe := safe_filename filename with hsafedef
  have hpartname : (upload_id ++ '_' :: safe ++ ['.', 'p', 'a', 'r', 't']).head? ≠ some '/' := by
    cases upload_id with
    | nil => simp
    | cons c cs =>
      simp only [List.cons_append, List.head?_cons, ne_eq, Option.some.injEq]
      intro h
      exact huid (h ▸ List.mem_cons_self c cs)
  have hdonename : (upload_id ++ ['.', 'd', 'o', 'n', 'e']).head? ≠ some '/' := by
    cases upload_id with
    | nil => simp
    | cons c cs =>
      simp only [List.cons_append, List.head?_cons, ne_eq, Option.some.injEq]
      intro h
      exact huid (h ▸ List.mem_cons_self c cs)
  constructor
  · show isInsideDir cd (pyJoin cd (upload_id ++ '_' :: safe ++ ['.', 'p', 'a', 'r', 't'])) = true
    rw [pyJoin_rel _ _ hpartname hcd hsl]
    apply isInsideDir_of_name
    · simp
    · intro h
      rcases List.mem_append.mp h with h | h
      · rcases List.mem_append.mp h with h | h
        · exact huid h
        · rcases List.mem_cons.mp h with h | h
          · exact absurd h (by decide)
          · exact safe_filename_no_slash filename h
      · exact absurd h (by decide)
    · intro h
      have hl := congrArg List.length h
      simp only [List.length_append, List.length_cons, List.length_nil] at hl
      omega
    · intro h
      have hl := congrArg List.length h
      simp only [List.length_append, List.length_cons, List.length_nil] at hl
      omega
  · show isInsideDir cd (pyJoin cd (upload_id ++ ['.', 'd', 'o', 'n', 'e'])) = true
    rw [pyJoin_rel _ _ hdonename hcd hsl]
    apply isInsideDir_of_name
    · simp
    · intro h
      rcases List.mem_append.mp h with h | h
      · exact huid h
      · exact absurd h (by decide)
    · intro h
      have hl := congrArg List.length h
      simp only [List.length_append, List.length_cons, List.length_nil] at hl
      omega
    · intro h
      have hl := congrArg List.length h
      simp only [List.length_append, List.length_cons, List.length_nil] at hl
      omega

/-- Witness for `c2_session_paths_inside_client_dir`: a filename with both
separators is sanitized and both paths are inside `/r/c`. -/
theorem c2_session_paths_inside_client_dir_witness :
    '/' ∉ String.toList "u1" ∧
    pyJoin (String.toList "/r") (String.toList "c") ≠ [] ∧
    (pyJoin (String.toList "/r") (String.toList "c")).getLast? ≠ some '/' ∧
    (isInsideDir (pyJoin (String.toList "/r") (String.toList "c"))
      (UploadSession.from_header (String.toList "/r") (String.toList "c")
        (String.toList "a/b\\c.jpg") (String.toList "u1") 10).part_path = true ∧
     isInsideDir (pyJoin (String.toList "/r") (String.toList "c"))
      (UploadSession.from_header (String.toList "/r") (String.toList "c")
        (String.toList "a/b\\c.jpg") (String.toList "u1") 10).done_path = true) :=
  ⟨by decide, by decide, by decide,
    c2_session_paths_inside_client_dir (String.toList "/r") (String.toList "c")
      (String.toList "a/b\\c.jpg") (String.toList "u1") 10
      (by decide) (by decide) (by decide)⟩

/-- C2 fails as stated: the upload id is never sanitized, so a header whose
upload id begins with `/` makes `os.path.join` discard the client directory
entirely — here the part path becomes the absolute `/evil_f.part`, outside
`root/client_name = /r/c`. -/
theorem c2_counterexample :
    (UploadSession.from_header (String.toList "/r") (String.toList "c")
        (String.toList "f") (String.toList "/evil") 7).part_path
      = String.toList "/evil_f.part" ∧
    isInsideDir (pyJoin (String.toList "/r") (String.toList "c"))
      ((UploadSession.from_header (String.toList "/r") (String.toList "c")
          (String.toList "f") (String.toList "/evil") 7).part_path) = false := by
  decide

/-- On-disk state of one upload session: the part file's bytes (`none` when
the file does not exist — `os.path.getsize` raises `FileNotFoundError`), the
done marker's text content (`none` when absent), and the completed final
artifacts of the client directory as (name, bytes) pairs, newest first. -/
structure DiskState where
  part : Option (List Byte)
  done : Option PyStr
  finals : List (PyStr × List Byte)
deriving DecidableEq

namespace UploadManager

/-- Model of `UploadManager.existing_offset`: the declared size when a done
marker exists, else the part file's size, else 0. -/
def existing_offset (st : DiskState) (sess : UploadSession) : Nat :=
  if st.done.isSome then sess.file_size
  else
    match st.part with
    | some b => b.length
    | none => 0

/-- Model of `UploadManager.reset_part`: `open(part_path, "wb")` truncates or
creates an empty part file. -/
def reset_part (st : DiskState) : DiskState := { st with part := some [] }

/-- Model of `UploadManager.finalize` called at time `now` (the
`datetime.now().strftime(...)` stamp): rename the part file to
`<now>_<filename>` and write the done marker with that name.  When no part
file exists `os.replace` raises `FileNotFoundError`, modelled as `none`; the
marker is then never written because the raise precedes it. -/
def finalize (now : PyStr) (st : DiskState) (sess : UploadSession) :
    Option (DiskState × PyStr) :=
  let final_name := now ++ '_' :: sess.filename
  match st.part with
  | none => none
  | some bytes =>
      some ({ part := none, done := some final_name,
              finals := (final_name, bytes) :: st.finals },
            pyJoin sess.client_dir final_name)

/-- Model of Python `str.strip()`. -/
def pyStrip (s : PyStr) : PyStr :=
  ((s.dropWhile Char.isWhitespace).reverse.dropWhile Char.isWhitespace).reverse

/-- Model of `UploadManager.read_final_path`: read the done marker, strip it,
and return the joined final path, or `none` (the handler then logs
`"unknown"`). -/
def read_final_path (st : DiskState) (sess : UploadSession) : Option PyStr :=
  match st.done with
  | none => none
  | some content =>
      let final_name := pyStrip content
      if final_name = [] then none else some (pyJoin sess.client_dir final_name)

end UploadManager

/-- Result of reading one protocol field from the stream: the value and the
remaining stream, a raised exception (short read or bad decode — the handler
answers `ER` either way), or a read that never returns. -/
inductive HRead (α : Type) where
  | ok (v : α) (rest : NetStream)
  | fail
  | hang
deriving DecidableEq

/-- Header-phase `readexactly` (no `wait_for` wrapper in the source, so a
stalled peer hangs the read instead of timing out). -/
def readBytesH (s : NetStream) (n : Nat) : HRead (List Byte) :=
  match readexactly s n with
  | .ok c r => .ok c r
  | .incomplete _ => .fail
  | .hang => .hang

/-- Big-endian value of a byte string, as `struct.unpack` computes it. -/
def beVal (bs : List Byte) : Nat := bs.foldl (fun acc b => acc * 256 + b) 0

/-- Model of `ProtocolV2.read_u32`. -/
def read_u32 (s : NetStream) : HRead Nat :=
  match readBytesH s 4 with
  | .ok bs r => .ok (beVal bs) r
  | .fail => .fail
  | .hang => .hang

/-- Model of `ProtocolV2.read_u64`. -/
def read_u64 (s : NetStream) : HRead Nat :=
  match readBytesH s 8 with
  | .ok bs r => .ok (beVal bs) r
  | .fail => .fail
  | .hang => .hang

/-- Decode one UTF-8 code point whose first byte is `b0` and whose
remaining input is `rest`, as strict `bytes.decode("utf-8")` does: rejects
invalid start bytes, truncated sequences, bad continuations, overlong forms,
surrogates and code points above U+10FFFF. -/
def utf8Step (b0 : Byte) (rest : List Byte) : Option (Char × List Byte) :=
  if b0 < 0x80 then some (Char.ofNat b0, rest)
  else if 0xC2 ≤ b0 ∧ b0 ≤ 0xDF then
    match rest with
    | b1 :: rest2 =>
      if 0x80 ≤ b1 ∧ b1 ≤ 0xBF then
        some (Char.ofNat ((b0 - 0xC0) * 0x40 + (b1 - 0x80)), rest2)
      else none
    | [] => none
  else if 0xE0 ≤ b0 ∧ b0 ≤ 0xEF then
    match rest with
    | b1 :: b2 :: rest2 =>
      if (if b0 = 0xE0 then 0xA0 ≤ b1 ∧ b1 ≤ 0xBF
          else if b0 = 0xED then 0x80 ≤ b1 ∧ b1 ≤ 0x9F
          else 0x80 ≤ b1 ∧ b1 ≤ 0xBF) ∧ 0x80 ≤ b2 ∧ b2 ≤ 0xBF then
        some (Char.ofNat (((b0 - 0xE0) * 0x40 + (b1 - 0x80)) * 0x40 + (b2 - 0x80)), rest2)
      else none
    | _ => none
  else if 0xF0 ≤ b0 ∧ b0 ≤ 0xF4 then
    match rest with
    | b1 :: b2 :: b3 :: rest2 =>
      if (if b0 = 0xF0 then 0x90 ≤ b1 ∧ b1 ≤ 0xBF
          else if b0 = 0xF4 then 0x80 ≤ b1 ∧ b1 ≤ 0x8F
          else 0x80 ≤ b1 ∧ b1 ≤ 0xBF) ∧ 0x80 ≤ b2 ∧ b2 ≤ 0xBF ∧ 0x80 ≤ b3 ∧ b3 ≤ 0xBF then
        some (Char.ofNat
          ((((b0 - 0xF0) * 0x40 + (b1 - 0x80)) * 0x40 + (b2 - 0x80)) * 0x40 + (b3 - 0x80)),
          rest2)
      else none
    | _ => none
  else none

/-- Decode a whole byte string; the fuel starts at the input length and each
step consumes at least the first byte, so it never runs out on the inputs
`utf8Decode` passes. -/
def utf8DecodeAux : Nat → List Byte → Option (List Char)
  | _, [] => some []
  | 0, _ :: _ => none
  | fuel + 1, b0 :: rest =>
    match utf8Step b0 rest with
    | none => none
    | some (ch, rest2) => (utf8DecodeAux fuel rest2).map (fun cs => ch :: cs)

/-- Strict UTF-8 decoding of a byte string, `none` on any invalid input. -/
def utf8Decode (bs : List Byte) : Option (List Char) := utf8DecodeAux bs.length bs

/-- Model of `ProtocolV2.read_string`: u32 length, raw bytes, strict UTF-8
decode. -/
def read_string (s : NetStream) : HRead PyStr :=
  match read_u32 s with
  | .fail => .fail
  | .hang => .hang
  | .ok n s1 =>
    match readBytesH s1 n with
    | .fail => .fail
    | .hang => .hang
    | .ok bs s2 =>
      match utf8Decode bs with
      | none => .fail
      | some cs => .ok cs s2

/-- The four header fields, in wire order. -/
structure Header where
  client_name : PyStr
  file_size : Nat
  filename : PyStr
  upload_id : PyStr
deriving DecidableEq

/-- Header phase of `ImageServer.handle_client`: client name, declared size,
filename, upload id. -/
def parseHeader (s : NetStream) : HRead Header :=
  match read_string s with
  | .fail => .fail
  | .hang => .hang
  | .ok cn s1 =>
    match read_u64 s1 with
    | .fail => .fail
    | .hang => .hang
    | .ok fs s2 =>
      match read_string s2 with
      | .fail => .fail
      | .hang => .hang
      | .ok fn s3 =>
        match read_string s3 with
        | .fail => .fail
        | .hang => .hang
        | .ok uid s4 => .ok ⟨cn, fs, fn, uid⟩ s4

/-- One value written to the client socket. -/
inductive Wire where
  | offset (v : Nat)
  | ackOK
  | ackER
deriving DecidableEq

/-- Terminal status of one connection: completed with `OK`, failed with a
best-effort `ER`, or blocked forever on a header read from a stalled peer. -/
inductive HRes where
  | ok
  | er
  | hang
deriving DecidableEq

/-- Observable outcome of one connection: the order of socket writes, the
terminal status, the resulting disk and lock-registry state, the unconsumed
stream, whether `reset_part` ran, whether `finalize` ran, and the final path
the handler logs (`none` stands for the source's `"unknown"` fallback or a
failed connection). -/
structure HandlerOut where
  writes : List Wire
  result : HRes
  disk : DiskState
  locks : List PyStr
  rest : NetStream
  didReset : Bool
  didFinalize : Bool
  finalPath : Option PyStr
deriving DecidableEq

/-- Model of `UploadManager.lock_for`'s effect on the lock registry: the set
of upload ids that own a lock entry (created on first use, never evicted). -/
def lock_for (locks : List PyStr) (uid : PyStr) : List PyStr :=
  if uid ∈ locks then locks else locks ++ [uid]

/-- Completion phase shared by both body branches of `handle_client`
(source lines 268–279): if no done marker exists, finalize; otherwise read
the recorded final path back; then acknowledge. -/
def finishAndAck (now : PyStr) (sess : UploadSession) (disk : DiskState)
    (locks : List PyStr) (existing : Nat) (rest : NetStream) (didReset : Bool) :
    HandlerOut :=
  if disk.done.isSome then
    ⟨[.offset existing, .ackOK], .ok, disk, locks, rest, didReset, false,
      UploadManager.read_final_path disk sess⟩
  else
    match UploadManager.finalize now disk sess with
    | some (disk2, final_path) =>
        ⟨[.offset existing, .ackOK], .ok, disk2, locks, rest, didReset, true,
          some final_path⟩
    | none =>
        ⟨[.offset existing, .ackER], .er, disk, locks, rest, didReset, false, none⟩

/-- Model of `ImageServer.handle_client` for one connection: parse the
header, create/fetch the upload lock, compute the resume offset (resetting a
part file that exceeds the declared size), send the offset, receive the
remaining body bytes appending to the part file, then finalize and
acknowledge.  Any raised exception is answered with a best-effort `ER`.
When the body is received, the part file is opened `"r+b"` if it exists and
`"wb"` (create empty) otherwise, and `seek(existing)` lands exactly at the
end of the opened file because `existing` is that file's size — so the
receive appends to `disk.part.getD []`. -/
def handle_client (cs : Nat) (tmo images_dir now : PyStr) (disk : DiskState)
    (locks : List PyStr) (s : NetStream) : HandlerOut :=
  match parseHeader s with
  | .hang => ⟨[], .hang, disk, locks, s, false, false, none⟩
  | .fail => ⟨[.ackER], .er, disk, locks, s, false, false, none⟩
  | .ok h s1 =>
    let sess := UploadSession.from_header images_dir h.client_name h.filename
      h.upload_id h.file_size
    let locks1 := lock_for locks sess.upload_id
    let existing0 := UploadManager.existing_offset disk sess
    let didReset := decide (existing0 > sess.file_size)
    let disk1 := if existing0 > sess.file_size then UploadManager.reset_part disk else disk
    let existing := if existing0 > sess.file_size then 0 else existing0
    let remaining := sess.file_size - existing
    if remaining > 0 then
      let r := receive_exactly_to_file cs tmo s1 (disk1.part.getD []) remaining
      let disk2 := { disk1 with part := some r.file }
      match r.err with
      | some _ =>
          ⟨[.offset existing, .ackER], .er, disk2, locks1, r.rest, didReset, false, none⟩
      | none => finishAndAck now sess disk2 locks1 existing r.rest didReset
    else
      finishAndAck now sess disk1 locks1 existing s1 didReset

/-- Big-endian encoding of `n` on `k` bytes (the client side of
`struct.pack`), used to build concrete and symbolic wire headers. -/
def beBytes : Nat → Nat → List Byte
  | 0, _ => []
  | k + 1, n => beBytes k (n / 256) ++ [n % 256]

/-- Length-prefixed encoding of an ASCII string field. -/
def encodeStr (s : PyStr) : List Byte := beBytes 4 s.length ++ s.map Char.toNat

/-- A full protocol v2 header: client name, u64 size, filename, upload id. -/
def encodeHeader (cn : PyStr) (n : Nat) (fn uid : PyStr) : List Byte :=
  encodeStr cn ++ beBytes 8 n ++ encodeStr fn ++ encodeStr uid

/-- An ASCII string: every character below 0x80. -/
def asciiStr (s : PyStr) : Prop := ∀ c ∈ s, c.toNat < 128

instance (s : PyStr) : Decidable (asciiStr s) :=
  inferInstanceAs (Decidable (∀ c ∈ s, c.toNat < 128))

theorem length_beBytes : ∀ (k n : Nat), (beBytes k n).length = k := by
  intro k
  induction k with
  | zero => intro n; rfl
  | succ k ih =>
    intro n
    simp [beBytes, ih]

theorem beVal_beBytes : ∀ (k n : Nat), beVal (beBytes k n) = n % 256 ^ k := by
  intro k
  induction k with
  | zero => intro n; simp [beBytes, beVal, Nat.mod_one]
  | succ k ih =>
    intro n
    show beVal (beBytes k (n / 256) ++ [n % 256]) = n % 256 ^ (k + 1)
    have h1 : beVal (beBytes k (n / 256) ++ [n % 256])
        = beVal (beBytes k (n / 256)) * 256 + n % 256 := by
      simp [beVal, List.foldl_append]
    rw [h1, ih, pow_succ, Nat.mul_comm (256 ^ k) 256, Nat.mod_mul]
    ring

theorem readexactly_append (xs r : List Byte) (e : StreamEnd) :
    readexactly ⟨xs ++ r, e⟩ xs.length = .ok xs ⟨r, e⟩ := by
  rw [readexactly, if_pos (by simp)]
  simp [List.take_left, List.drop_left]

theorem utf8DecodeAux_ascii : ∀ (fuel : Nat) (s : PyStr), s.length ≤ fuel →
    asciiStr s → utf8DecodeAux fuel (s.map Char.toNat) = some s := by
  intro fuel
  induction fuel with
  | zero =>
    intro s hf _
    rw [List.length_eq_zero.mp (Nat.le_zero.mp hf)]
    rfl
  | succ fuel ih =>
    intro s hf h
    match s with
    | [] => rfl
    | c :: cs =>
      have hc : c.toNat < 0x80 := h c (List.mem_cons_self c cs)
      have hcs : asciiStr cs := fun x hx => h x (List.mem_cons_of_mem c hx)
      show utf8DecodeAux (fuel + 1) (c.toNat :: cs.map Char.toNat) = some (c :: cs)
      rw [utf8DecodeAux, utf8Step.eq_def, if_pos hc]
      dsimp only
      rw [ih cs (by simpa using hf) hcs]
      simp only [Option.map_some', Char.ofNat_toNat]

theorem utf8Decode_ascii (s : PyStr) (h : asciiStr s) :
    utf8Decode (s.map Char.toNat) = some s := by
  rw [utf8Decode, List.length_map]
  exact utf8DecodeAux_ascii s.length s le_rfl h

theorem readBytesH_append (xs r : List Byte) (e : StreamEnd) :
    readBytesH ⟨xs ++ r, e⟩ xs.length = .ok xs ⟨r, e⟩ := by
  unfold readBytesH
  rw [readexactly_append]

theorem read_u32_encode (n : Nat) (r : List Byte) (e : StreamEnd) (hn : n < 2 ^ 32) :
    read_u32 ⟨beBytes 4 n ++ r, e⟩ = .ok n ⟨r, e⟩ := by
  have h := readBytesH_append (beBytes 4 n) r e
  rw [length_beBytes] at h
  unfold read_u32
  rw [h]
  dsimp only
  rw [show beVal (beBytes 4 n) = n by rw [beVal_beBytes]; exact Nat.mod_eq_of_lt hn]

theorem read_u64_encode (n : Nat) (r : List Byte) (e : StreamEnd) (hn : n < 2 ^ 64) :
    read_u64 ⟨beBytes 8 n ++ r, e⟩ = .ok n ⟨r, e⟩ := by
  have h := readBytesH_append (beBytes 8 n) r e
  rw [length_beBytes] at h
  unfold read_u64
  rw [h]
  dsimp only
  rw [show beVal (beBytes 8 n) = n by rw [beVal_beBytes]; exact Nat.mod_eq_of_lt hn]

theorem read_string_encode (s : PyStr) (r : List Byte) (e : StreamEnd)
    (hascii : asciiStr s) (hlen : s.length < 2 ^ 32) :
    read_string ⟨encodeStr s ++ r, e⟩ = .ok s ⟨r, e⟩ := by
  unfold read_string
  rw [encodeStr, List.append_assoc, read_u32_encode _ _ _ hlen]
  dsimp only
  have h := readBytesH_append (s.map Char.toNat) r e
  rw [List.length_map] at h
  rw [h]
  dsimp only
  rw [utf8Decode_ascii s hascii]

theorem parseHeader_encode (cn : PyStr) (n : Nat) (fn uid : PyStr)
    (body : List Byte) (e : StreamEnd)
    (hcn : asciiStr cn) (hcnl : cn.length < 2 ^ 32)
    (hn : n < 2 ^ 64)
    (hfn : asciiStr fn) (hfnl : fn.length < 2 ^ 32)
    (huid : asciiStr uid) (huidl : uid.length < 2 ^ 32) :
    parseHeader ⟨encodeHeader cn n fn uid ++ body, e⟩ = .ok ⟨cn, n, fn, uid⟩ ⟨body, e⟩ := by
  unfold parseHeader
  rw [show encodeHeader cn n fn uid ++ body
      = encodeStr cn ++ (beBytes 8 n ++ (encodeStr fn ++ (encodeStr uid ++ body))) by
    simp [encodeHeader, List.append_assoc]]
  rw [read_string_encode _ _ _ hcn hcnl]
  dsimp only
  rw [read_u64_encode _ _ _ hn]
  dsimp only
  rw [read_string_encode _ _ _ hfn hfnl]
  dsimp only
  rw [read_string_encode _ _ _ huid huidl]

@[simp]
theorem from_header_client_name (i c f u : PyStr) (n : Nat) :
    (UploadSession.from_header i c f u n).client_name = c := rfl

@[simp]
theorem from_header_filename (i c f u : PyStr) (n : Nat) :
    (UploadSession.from_header i c f u n).filename = safe_filename f := rfl

@[simp]
theorem from_header_upload_id (i c f u : PyStr) (n : Nat) :
    (UploadSession.from_header i c f u n).upload_id = u := rfl

@[simp]
theorem from_header_file_size (i c f u : PyStr) (n : Nat) :
    (UploadSession.from_header i c f u n).file_size = n := rfl

@[simp]
theorem from_header_client_dir (i c f u : PyStr) (n : Nat) :
    (UploadSession.from_header i c f u n).client_dir = pyJoin i c := rfl

/-- C5: `existing_offset` returns the declared size whenever a done marker
exists (marker precedence over part size), else the part file's size, else
0 when no part file exists. -/
theorem c5_existing_offset_cases (st : DiskState) (sess : UploadSession) :
    (st.done.isSome → UploadManager.existing_offset st sess = sess.file_size) ∧
    (st.done = none → ∀ b, st.part = some b →
        UploadManager.existing_offset st sess = b.length) ∧
    (st.done = none → st.part = none → UploadManager.existing_offset st sess = 0) := by
  refine ⟨fun h => ?_, fun h b hb => ?_, fun h hp => ?_⟩
  · rw [UploadManager.existing_offset, if_pos h]
  · rw [UploadManager.existing_offset, if_neg (by rw [h]; exact Bool.false_ne_true ∘ congrArg id), hb]
  · rw [UploadManager.existing_offset, if_neg (by rw [h]; exact Bool.false_ne_true ∘ congrArg id), hp]

/-- Witness for `c5_existing_offset_cases` on three concrete disk states:
marker present (precedence: declared size 5 wins over a 3-byte part file),
part only, and nothing on disk. -/
theorem c5_existing_offset_cases_witness :
    UploadManager.existing_offset
      ⟨some [1, 2, 3], some (String.toList "x"), []⟩
      ⟨String.toList "c", String.toList "f", String.toList "u", 5,
        String.toList "/d", String.toList "/p", String.toList "/m"⟩ = 5 ∧
    UploadManager.existing_offset
      ⟨some [1, 2, 3], none, []⟩
      ⟨String.toList "c", String.toList "f", String.toList "u", 5,
        String.toList "/d", String.toList "/p", String.toList "/m"⟩ = 3 ∧
    UploadManager.existing_offset
      ⟨none, none, []⟩
      ⟨String.toList "c", String.toList "f", String.toList "u", 5,
        String.toList "/d", String.toList "/p", String.toList "/m"⟩ = 0 :=
  ⟨(c5_existing_offset_cases _ _).1 (by decide),
   (c5_existing_offset_cases _ _).2.1 rfl [1, 2, 3] rfl,
   (c5_existing_offset_cases _ _).2.2 rfl rfl⟩

/-- C7: when reading or decoding any header field fails, the handler answers
only the 2-byte failure code — no resume offset is ever sent — and neither
the disk state nor the lock registry changes; no session state of any kind
is created. -/
theorem c7_header_failure_creates_no_state (cs : Nat) (tmo images_dir now : PyStr)
    (disk : DiskState) (locks : List PyStr) (s : NetStream)
    (hfail : parseHeader s = .fail) :
    handle_client cs tmo images_dir now disk locks s =
      ⟨[.ackER], .er, disk, locks, s, false, false, none⟩ := by
  unfold handle_client
  rw [hfail]

/-- Witness for `c7_header_failure_creates_no_state`: a header declaring a
2-byte client name but delivering only 1 byte before the peer closes. -/
theorem c7_header_failure_creates_no_state_witness :
    parseHeader ⟨[0, 0, 0, 2, 65], .closed⟩ = .fail ∧
    handle_client 4 (String.toList "60.0") (String.toList "/r") (String.toList "T")
        ⟨none, none, []⟩ [] ⟨[0, 0, 0, 2, 65], .closed⟩ =
      ⟨[.ackER], .er, ⟨none, none, []⟩, [], ⟨[0, 0, 0, 2, 65], .closed⟩,
        false, false, none⟩ :=
  ⟨by decide,
    c7_header_failure_creates_no_state 4 (String.toList "60.0") (String.toList "/r")
      (String.toList "T") ⟨none, none, []⟩ [] ⟨[0, 0, 0, 2, 65], .closed⟩ (by decide)⟩

/-- C3: when the done marker exists, a reconnecting upload with that id is
answered with a resume offset equal to the declared size and an immediate
success, with zero body bytes consumed from the stream, no change to any
state, and no re-finalization — the recorded final path is read back. -/
theorem c3_done_marker_short_circuits (cs : Nat) (tmo images_dir now : PyStr)
    (disk : DiskState) (locks : List PyStr) (s rest : NetStream) (h : Header)
    (hparse : parseHeader s = .ok h rest) (name : PyStr) (hdone : disk.done = some name) :
    handle_client cs tmo images_dir now disk locks s =
      ⟨[.offset h.file_size, .ackOK], .ok, disk, lock_for locks h.upload_id, rest,
        false, false,
        UploadManager.read_final_path disk
          (UploadSession.from_header images_dir h.client_name h.filename
            h.upload_id h.file_size)⟩ := by
  unfold handle_client
  rw [hparse]
  have hsome : disk.done.isSome = true := by rw [hdone]; rfl
  have hoff : ∀ sess : UploadSession,
      UploadManager.existing_offset disk sess = sess.file_size := by
    intro sess
    rw [UploadManager.existing_offset, if_pos hsome]
  simp only [hoff, from_header_file_size, from_header_upload_id, gt_iff_lt,
    lt_irrefl, if_false, decide_eq_false_iff_not, not_lt, le_refl,
    Nat.sub_self, lt_irrefl, if_neg, finishAndAck, hsome, if_true]
  simp

/-- Witness for `c3_done_marker_short_circuits`: reconnecting after a
completed 3-byte upload gets offset 3 and `OK` at once, with the stream's
body-less remainder untouched and nothing re-finalized. -/
theorem c3_done_marker_short_circuits_witness :
    parseHeader ⟨encodeHeader (String.toList "c") 3 (String.toList "f")
        (String.toList "u"), .closed⟩
      = .ok ⟨String.toList "c", 3, String.toList "f", String.toList "u"⟩ ⟨[], .closed⟩ ∧
    (⟨none, some (String.toList "T_f"), []⟩ : DiskState).done
      = some (String.toList "T_f") ∧
    handle_client 4 (String.toList "60.0") (String.toList "/r") (String.toList "T")
        ⟨none, some (String.toList "T_f"), []⟩ []
        ⟨encodeHeader (String.toList "c") 3 (String.toList "f")
          (String.toList "u"), .closed⟩ =
      ⟨[.offset 3, .ackOK], .ok, ⟨none, some (String.toList "T_f"), []⟩,
        [String.toList "u"], ⟨[], .closed⟩, false, false,
        UploadManager.read_final_path ⟨none, some (String.toList "T_f"), []⟩
          (UploadSession.from_header (String.toList "/r") (String.toList "c")
            (String.toList "f") (String.toList "u") 3)⟩ :=
  ⟨by decide, rfl,
    c3_done_marker_short_circuits 4 (String.toList "60.0") (String.toList "/r")
      (String.toList "T") ⟨none, some (String.toList "T_f"), []⟩ []
      ⟨encodeHeader (String.toList "c") 3 (String.toList "f")
        (String.toList "u"), .closed⟩
      ⟨[], .closed⟩ ⟨String.toList "c", 3, String.toList "f", String.toList "u"⟩
      (by decide) (String.toList "T_f") rfl⟩

/-- C1 (amended): a single unbroken upload of a positive declared size onto a
fresh upload id produces a final artifact holding exactly the received bytes
(hence of exactly the declared size) and a done marker whose content is the
final artifact's name.  Declared size 0 is excluded: see the
counterexample — with no body to receive the part file is never created and
finalization fails. -/
theorem c1_unbroken_upload_completes
    (cs : Nat) (tmo images_dir now cn fn uid : PyStr) (n : Nat) (body : List Byte)
    (disk : DiskState) (locks : List PyStr) (e : StreamEnd)
    (hcs : 0 < cs) (hn : 0 < n)
    (hcn : asciiStr cn) (hcnl : cn.length < 2 ^ 32)
    (hn64 : n < 2 ^ 64)
    (hfn : asciiStr fn) (hfnl : fn.length < 2 ^ 32)
    (huid : asciiStr uid) (huidl : uid.length < 2 ^ 32)
    (hbody : body.length = n)
    (hpart : disk.part = none) (hdone : disk.done = none) :
    handle_client cs tmo images_dir now disk locks
        ⟨encodeHeader cn n fn uid ++ body, e⟩ =
      ⟨[.offset 0, .ackOK], .ok,
        ⟨none, some (now ++ '_' :: safe_filename fn),
          (now ++ '_' :: safe_filename fn, body) :: disk.finals⟩,
        lock_for locks uid, ⟨[], e⟩, false, true,
        some (pyJoin (pyJoin images_dir cn) (now ++ '_' :: safe_filename fn))⟩ := by
  unfold handle_client
  rw [parseHeader_encode cn n fn uid body e hcn hcnl hn64 hfn hfnl huid huidl]
  have hoff : UploadManager.existing_offset disk
      (UploadSession.from_header images_dir cn fn uid n) = 0 := by
    rw [UploadManager.existing_offset, if_neg (by rw [hdone]; simp), hpart]
  simp only [hoff, from_header_file_size, from_header_upload_id, from_header_filename,
    from_header_client_dir, gt_iff_lt, Nat.not_lt_zero, decide_False, if_neg,
    Nat.sub_zero, if_false]
  rw [if_pos hn, hpart]
  show (let r := receive_exactly_to_file cs tmo ⟨body, e⟩ (Option.getD none []) n
        let disk2 : DiskState := ⟨some r.file, disk.done, disk.finals⟩
        match r.err with
        | some _ => HandlerOut.mk [.offset 0, .ackER] .er disk2 (lock_for locks uid)
            r.rest false false none
        | none => finishAndAck now (UploadSession.from_header images_dir cn fn uid n)
            disk2 (lock_for locks uid) 0 r.rest false) = _
  rw [show (Option.getD none [] : List Byte) = [] from rfl,
    receive_ok cs tmo n body e [] hcs (le_of_eq hbody.symm)]
  show finishAndAck now (UploadSession.from_header images_dir cn fn uid n)
      ⟨some ([] ++ body.take n), disk.done, disk.finals⟩ (lock_for locks uid) 0
      ⟨body.drop n, e⟩ false = _
  rw [show body.take n = body by rw [← hbody]; exact List.take_length body,
    show body.drop n = [] by rw [← hbody]; exact List.drop_length body]
  rw [finishAndAck, if_neg (by rw [hdone]; simp)]
  rw [show UploadManager.finalize now
        ⟨some ([] ++ body), disk.done, disk.finals⟩
        (UploadSession.from_header images_dir cn fn uid n)
      = some (⟨none, some (now ++ '_' :: safe_filename fn),
          (now ++ '_' :: safe_filename fn, [] ++ body) :: disk.finals⟩,
          pyJoin (pyJoin images_dir cn) (now ++ '_' :: safe_filename fn)) from rfl]
  simp

/-- C1 fails as stated for declared size 0: a fresh size-0 upload receives
offset 0 and zero body bytes (a complete, uninterrupted transfer), yet the
handler answers `ER` and leaves no artifact and no done marker — the body
branch is skipped, so no part file is ever created, and `finalize`'s
`os.replace` raises `FileNotFoundError`. -/
theorem c1_counterexample :
    handle_client 4 (String.toList "60.0") (String.toList "/r") (String.toList "T")
        ⟨none, none, []⟩ []
        ⟨encodeHeader (String.toList "c") 0 (String.toList "f")
          (String.toList "u"), .closed⟩ =
      ⟨[.offset 0, .ackER], .er, ⟨none, none, []⟩, [String.toList "u"],
        ⟨[], .closed⟩, false, false, none⟩ := by
  decide

/-- Witness for `c1_unbroken_upload_completes`: a fresh 3-byte upload from
client `c` finalizes to `T_f` containing exactly the received bytes. -/
theorem c1_unbroken_upload_completes_witness :
    0 < 4 ∧ 0 < 3 ∧ asciiStr (String.toList "c") ∧
    (String.toList "c").length < 2 ^ 32 ∧ 3 < 2 ^ 64 ∧
    asciiStr (String.toList "f") ∧ (String.toList "f").length < 2 ^ 32 ∧
    asciiStr (String.toList "u") ∧ (String.toList "u").length < 2 ^ 32 ∧
    ([7, 8, 9] : List Byte).length = 3 ∧
    (⟨none, none, []⟩ : DiskState).part = none ∧
    (⟨none, none, []⟩ : DiskState).done = none ∧
    handle_client 4 (String.toList "60.0") (String.toList "/r") (String.toList "T")
        ⟨none, none, []⟩ []
        ⟨encodeHeader (String.toList "c") 3 (String.toList "f")
          (String.toList "u") ++ [7, 8, 9], .closed⟩ =
      ⟨[.offset 0, .ackOK], .ok,
        ⟨none, some (String.toList "T_f"), [(String.toList "T_f", [7, 8, 9])]⟩,
        [String.toList "u"], ⟨[], .closed⟩, false, true,
        some (String.toList "/r/c/T_f")⟩ :=
  ⟨by decide, by decide, by decide, by decide, by decide, by decide, by decide,
   by decide, by decide, by decide, rfl, rfl, by
    have h := c1_unbroken_upload_completes 4 (String.toList "60.0")
      (String.toList "/r") (String.toList "T") (String.toList "c")
      (String.toList "f") (String.toList "u") 3 [7, 8, 9]
      ⟨none, none, []⟩ [] .closed
      (by decide) (by decide) (by decide) (by decide) (by decide) (by decide)
      (by decide) (by decide) (by decide) (by decide) rfl rfl
    rw [h]
    decide⟩

/-- The reset flag of a completed header-parse run equals the source's reset
condition `existing > session.file_size`, on every control-flow path. -/
theorem handle_client_didReset_eq (cs : Nat) (tmo images_dir now : PyStr)
    (disk : DiskState) (locks : List PyStr) (s rest : NetStream) (h : Header)
    (hparse : parseHeader s = .ok h rest) :
    (handle_client cs tmo images_dir now disk locks s).didReset
      = decide (UploadManager.existing_offset disk
          (UploadSession.from_header images_dir h.client_name h.filename
            h.upload_id h.file_size) > h.file_size) := by
  unfold handle_client finishAndAck
  rw [hparse]
  dsimp only
  split <;> (repeat' split) <;> rfl

/-- C6: the handler resets the part file exactly when no done marker exists
and the on-disk part size exceeds the declared size; in that case the reset
is non-fatal — the connection proceeds from offset 0 and completes the
transfer normally, finalizing the freshly received bytes. -/
theorem c6_stale_part_resets_and_recovers
    (cs : Nat) (tmo images_dir now cn fn uid : PyStr) (n : Nat) (body : List Byte)
    (disk : DiskState) (locks : List PyStr) (e : StreamEnd)
    (hcs : 0 < cs)
    (hcn : asciiStr cn) (hcnl : cn.length < 2 ^ 32)
    (hn64 : n < 2 ^ 64)
    (hfn : asciiStr fn) (hfnl : fn.length < 2 ^ 32)
    (huid : asciiStr uid) (huidl : uid.length < 2 ^ 32)
    (hbody : body.length = n) :
    ((handle_client cs tmo images_dir now disk locks
        ⟨encodeHeader cn n fn uid ++ body, e⟩).didReset = true ↔
      disk.done = none ∧ n < (disk.part.getD []).length) ∧
    (disk.done = none → ∀ b, disk.part = some b → n < b.length →
      handle_client cs tmo images_dir now disk locks
          ⟨encodeHeader cn n fn uid ++ body, e⟩ =
        ⟨[.offset 0, .ackOK], .ok,
          ⟨none, some (now ++ '_' :: safe_filename fn),
            (now ++ '_' :: safe_filename fn, body) :: disk.finals⟩,
          lock_for locks uid, ⟨[], e⟩, true, true,
          some (pyJoin (pyJoin images_dir cn) (now ++ '_' :: safe_filename fn))⟩) := by
  constructor
  · rw [handle_client_didReset_eq cs tmo images_dir now disk locks _ ⟨body, e⟩
      ⟨cn, n, fn, uid⟩
      (parseHeader_encode cn n fn uid body e hcn hcnl hn64 hfn hfnl huid huidl)]
    rw [decide_eq_true_iff]
    cases hdone : disk.done with
    | some name =>
      simp [UploadManager.existing_offset, hdone]
    | none =>
      cases hp : disk.part with
      | some b => simp [UploadManager.existing_offset, hdone, hp]
      | none => simp [UploadManager.existing_offset, hdone, hp]
  · intro hdone b hb hlen
    unfold handle_client
    rw [parseHeader_encode cn n fn uid body e hcn hcnl hn64 hfn hfnl huid huidl]
    have hoff : UploadManager.existing_offset disk
        (UploadSession.from_header images_dir cn fn uid n) = b.length := by
      rw [UploadManager.existing_offset, if_neg (by rw [hdone]; simp), hb]
    simp only [hoff, from_header_file_size, from_header_upload_id, from_header_filename,
      from_header_client_dir, gt_iff_lt, hlen, if_true, decide_True, Nat.sub_zero]
    by_cases hn0 : 0 < n
    · rw [if_pos hn0]
      show (let r := receive_exactly_to_file cs tmo ⟨body, e⟩
              ((UploadManager.reset_part disk).part.getD []) n
            let disk2 : DiskState := ⟨some r.file, (UploadManager.reset_part disk).done,
              (UploadManager.reset_part disk).finals⟩
            match r.err with
            | some _ => HandlerOut.mk [.offset 0, .ackER] .er disk2 (lock_for locks uid)
                r.rest true false none
            | none => finishAndAck now (UploadSession.from_header images_dir cn fn uid n)
                disk2 (lock_for locks uid) 0 r.rest true) = _
      rw [show ((UploadManager.reset_part disk).part.getD [] : List Byte) = [] from rfl,
        receive_ok cs tmo n body e [] hcs (le_of_eq hbody.symm)]
      show finishAndAck now (UploadSession.from_header images_dir cn fn uid n)
          ⟨some ([] ++ body.take n), (UploadManager.reset_part disk).done,
            (UploadManager.reset_part disk).finals⟩ (lock_for locks uid) 0
          ⟨body.drop n, e⟩ true = _
      rw [show body.take n = body by rw [← hbody]; exact List.take_length body,
        show body.drop n = [] by rw [← hbody]; exact List.drop_length body]
      rw [finishAndAck, if_neg (by
        show ¬ (UploadManager.reset_part disk).done.isSome = true
        rw [show (UploadManager.reset_part disk).done = disk.done from rfl, hdone]
        simp)]
      rw [show UploadManager.finalize now
            ⟨some ([] ++ body), (UploadManager.reset_part disk).done,
              (UploadManager.reset_part disk).finals⟩
            (UploadSession.from_header images_dir cn fn uid n)
          = some (⟨none, some (now ++ '_' :: safe_filename fn),
              (now ++ '_' :: safe_filename fn, [] ++ body) :: disk.finals⟩,
              pyJoin (pyJoin images_dir cn) (now ++ '_' :: safe_filename fn)) from rfl]
      simp
    · have hn' : n = 0 := by omega
      subst hn'
      have hbody' : body = [] := List.length_eq_zero.mp hbody
      subst hbody'
      rw [if_neg (by omega)]
      rw [finishAndAck, if_neg (by
        show ¬ (UploadManager.reset_part disk).done.isSome = true
        rw [show (UploadManager.reset_part disk).done = disk.done from rfl, hdone]
        simp)]
      rw [show UploadManager.finalize now (UploadManager.reset_part disk)
            (UploadSession.from_header images_dir cn fn uid 0)
          = some (⟨none, some (now ++ '_' :: safe_filename fn),
              (now ++ '_' :: safe_filename fn, []) :: disk.finals⟩,
              pyJoin (pyJoin images_dir cn) (now ++ '_' :: safe_filename fn)) from rfl]

/-- Witness for `c6_stale_part_resets_and_recovers`: a 5-byte stale part
file against a declared size of 2 is reset, the connection is told offset 0,
and the fresh 2-byte transfer completes and finalizes. -/
theorem c6_stale_part_resets_and_recovers_witness :
    0 < 4 ∧ asciiStr (String.toList "c") ∧ (String.toList "c").length < 2 ^ 32 ∧
    2 < 2 ^ 64 ∧ asciiStr (String.toList "f") ∧ (String.toList "f").length < 2 ^ 32 ∧
    asciiStr (String.toList "u") ∧ (String.toList "u").length < 2 ^ 32 ∧
    ([7, 8] : List Byte).length = 2 ∧
    ((handle_client 4 (String.toList "60.0") (String.toList "/r") (String.toList "T")
        ⟨some [1, 2, 3, 4, 5], none, []⟩ []
        ⟨encodeHeader (String.toList "c") 2 (String.toList "f")
          (String.toList "u") ++ [7, 8], .closed⟩).didReset = true ↔
      (⟨some [1, 2, 3, 4, 5], none, []⟩ : DiskState).done = none ∧
        2 < ((⟨some [1, 2, 3, 4, 5], none, []⟩ : DiskState).part.getD []).length) ∧
    handle_client 4 (String.toList "60.0") (String.toList "/r") (String.toList "T")
        ⟨some [1, 2, 3, 4, 5], none, []⟩ []
        ⟨encodeHeader (String.toList "c") 2 (String.toList "f")
          (String.toList "u") ++ [7, 8], .closed⟩ =
      ⟨[.offset 0, .ackOK], .ok,
        ⟨none, some (String.toList "T_f"), [(String.toList "T_f", [7, 8])]⟩,
        [String.toList "u"], ⟨[], .closed⟩, true, true,
        some (String.toList "/r/c/T_f")⟩ :=
  ⟨by decide, by decide, by decide, by decide, by decide, by decide, by decide,
   by decide, by decide,
   (c6_stale_part_resets_and_recovers 4 (String.toList "60.0") (String.toList "/r")
      (String.toList "T") (String.toList "c") (String.toList "f") (String.toList "u")
      2 [7, 8] ⟨some [1, 2, 3, 4, 5], none, []⟩ [] .closed
      (by decide) (by decide) (by decide) (by decide) (by decide) (by decide)
      (by decide) (by decide) (by decide)).1,
   by
    have h := (c6_stale_part_resets_and_recovers 4 (String.toList "60.0")
      (String.toList "/r") (String.toList "T") (String.toList "c") (String.toList "f")
      (String.toList "u") 2 [7, 8] ⟨some [1, 2, 3, 4, 5], none, []⟩ [] .closed
      (by decide) (by decide) (by decide) (by decide) (by decide) (by decide)
      (by decide) (by decide) (by decide)).2 rfl [1, 2, 3, 4, 5] rfl (by decide)
    rw [h]
    decide⟩

/-- Control location of one connection's handler inside the body of
`handle_client`, at the granularity of its `await` suspension points under
the single-threaded cooperative scheduler.  `start` is before
`async with lock`; `probing` holds the lock and is about to compute the
resume offset (reset included) and send it — straight-line code with no
intervening `await` until the post-send `drain`; `receiving r` holds the
lock with `r` body bytes still owed, each chunk read being one suspension
point; the done-marker check and `finalize` are synchronous, so they form
one atomic step that also exits the lock; `finished`/`failed` are
terminal. -/
inductive Phase where
  | start
  | probing
  | receiving (remaining : Nat)
  | finished
  | failed
deriving DecidableEq

/-- Per-connection state: control location, that connection's own incoming
stream, the resume offset it sent (if any), and whether it ran `finalize`. -/
structure TaskState where
  phase : Phase
  stream : NetStream
  offsetSent : Option Nat
  didFinalize : Bool
deriving DecidableEq

/-- Shared state of two simultaneous connections for the same upload id:
the session's disk state, the `asyncio.Lock` owner (if held), and the two
tasks. -/
structure CState where
  disk : DiskState
  lockHeld : Option (Fin 2)
  tasks : Fin 2 → TaskState

/-- A phase inside the lock-guarded critical section (offset probe through
finalize). -/
def inCS : Phase → Bool
  | .probing => true
  | .receiving _ => true
  | _ => false

/-- Offset-probe step of the handler under the lock: `existing_offset`,
reset when the on-disk size exceeds the declared size, yielding the new disk
and the offset sent to the client (source lines 244–255). -/
def probeUpd (disk : DiskState) (sess : UploadSession) : DiskState × Nat :=
  if UploadManager.existing_offset disk sess > sess.file_size
  then (UploadManager.reset_part disk, 0)
  else (disk, UploadManager.existing_offset disk sess)

/-- Completion step of the handler (source lines 268–274): if no done
marker, `finalize` (which can fail when no part file exists); else leave the
disk alone.  Returns the new disk, whether `finalize` ran, and the terminal
phase. -/
def finishUpd (now : PyStr) (disk : DiskState) (sess : UploadSession) :
    DiskState × Bool × Phase :=
  if disk.done.isSome then (disk, false, .finished)
  else
    match UploadManager.finalize now disk sess with
    | some (d2, _) => (d2, true, .finished)
    | none => (disk, false, .failed)

/-- Interleaving semantics of two connections handling the same upload id
(hence the same `UploadSession`): at every suspension point the scheduler
may run either task's next step.  `acquire` needs the lock free; every
path out of the critical section (`recvClose`, `recvStall`, `sendFail`,
`finish`) releases it, mirroring `async with lock`. -/
inductive CStep (cs : Nat) (now : PyStr) (sess : UploadSession) :
    CState → CState → Prop where
  | acquire (s : CState) (i : Fin 2)
      (hp : (s.tasks i).phase = .start) (hl : s.lockHeld = none) :
      CStep cs now sess s
        { s with lockHeld := some i,
                 tasks := Function.update s.tasks i
                   { s.tasks i with phase := .probing } }
  | probe (s : CState) (i : Fin 2) (hp : (s.tasks i).phase = .probing) :
      CStep cs now sess s
        { s with disk := (probeUpd s.disk sess).1,
                 tasks := Function.update s.tasks i
                   { s.tasks i with
                     phase := .receiving (sess.file_size - (probeUpd s.disk sess).2),
                     offsetSent := some (probeUpd s.disk sess).2 } }
  | recvChunk (s : CState) (i : Fin 2) (r : Nat) (chunk : List Byte) (srest : NetStream)
      (hp : (s.tasks i).phase = .receiving r) (hr : 0 < r)
      (hread : readexactly (s.tasks i).stream (min cs r) = .ok chunk srest) :
      CStep cs now sess s
        { s with disk := { s.disk with part := some ((s.disk.part.getD []) ++ chunk) },
                 tasks := Function.update s.tasks i
                   { s.tasks i with phase := .receiving (r - min cs r), stream := srest } }
  | recvClose (s : CState) (i : Fin 2) (r : Nat) (leftover : List Byte)
      (hp : (s.tasks i).phase = .receiving r) (hr : 0 < r)
      (hread : readexactly (s.tasks i).stream (min cs r) = .incomplete leftover) :
      CStep cs now sess s
        { s with disk := { s.disk with part := some ((s.disk.part.getD []) ++ leftover) },
                 lockHeld := none,
                 tasks := Function.update s.tasks i
                   { s.tasks i with phase := .failed } }
  | recvStall (s : CState) (i : Fin 2) (r : Nat)
      (hp : (s.tasks i).phase = .receiving r) (hr : 0 < r)
      (hread : readexactly (s.tasks i).stream (min cs r) = .hang) :
      CStep cs now sess s
        { s with lockHeld := none,
                 tasks := Function.update s.tasks i
                   { s.tasks i with phase := .failed } }
  | sendFail (s : CState) (i : Fin 2) (r : Nat)
      (hp : (s.tasks i).phase = .receiving r) :
      CStep cs now sess s
        { s with lockHeld := none,
                 tasks := Function.update s.tasks i
                   { s.tasks i with phase := .failed } }
  | finish (s : CState) (i : Fin 2)
      (hp : (s.tasks i).phase = .receiving 0) :
      CStep cs now sess s
        { s with disk := (finishUpd now s.disk sess).1,
                 lockHeld := none,
                 tasks := Function.update s.tasks i
                   { s.tasks i with
                     phase := (finishUpd now s.disk sess).2.2,
                     didFinalize := (s.tasks i).didFinalize
                       || (finishUpd now s.disk sess).2.1 } }

/-- Both connections start before the lock, with their own streams, over an
arbitrary shared disk state. -/
def initC (disk0 : DiskState) (s1 s2 : NetStream) : CState :=
  { disk := disk0, lockHeld := none,
    tasks := fun i => if i = 0 then ⟨.start, s1, none, false⟩ else ⟨.start, s2, none, false⟩ }

/-- Inductive invariant: a task inside the critical section owns the lock; a
task that finalized is witnessed by the done marker; the two tasks never
both finalized. -/
def CInv (s : CState) : Prop :=
  (∀ i : Fin 2, inCS (s.tasks i).phase = true → s.lockHeld = some i) ∧
  (∀ i : Fin 2, (s.tasks i).didFinalize = true → s.disk.done.isSome = true) ∧
  ¬((s.tasks 0).didFinalize = true ∧ (s.tasks 1).didFinalize = true)

theorem probeUpd_done (d : DiskState) (sess : UploadSession) :
    (probeUpd d sess).1.done = d.done := by
  unfold probeUpd
  split <;> rfl

theorem probeUpd_of_done (d : DiskState) (sess : UploadSession)
    (h : d.done.isSome = true) : probeUpd d sess = (d, sess.file_size) := by
  unfold probeUpd
  rw [UploadManager.existing_offset, if_pos h, if_neg (by omega)]

theorem cinv_init (disk0 : DiskState) (s1 s2 : NetStream) : CInv (initC disk0 s1 s2) := by
  refine ⟨fun i hi => ?_, fun i hi => ?_, fun hb => ?_⟩
  · by_cases h : i = 0 <;> simp [initC, h, inCS] at hi
  · by_cases h : i = 0 <;> simp [initC, h] at hi
  · simp [initC] at hb

theorem upd_phase (tasks : Fin 2 → TaskState) (i j : Fin 2) (t : TaskState) :
    ((Function.update tasks i t) j).phase
      = if j = i then t.phase else (tasks j).phase := by
  by_cases h : j = i
  · subst h; rw [Function.update_same, if_pos rfl]
  · rw [Function.update_noteq h, if_neg h]

theorem upd_fin (tasks : Fin 2 → TaskState) (i j : Fin 2) (t : TaskState) :
    ((Function.update tasks i t) j).didFinalize
      = if j = i then t.didFinalize else (tasks j).didFinalize := by
  by_cases h : j = i
  · subst h; rw [Function.update_same, if_pos rfl]
  · rw [Function.update_noteq h, if_neg h]

theorem upd_offset (tasks : Fin 2 → TaskState) (i j : Fin 2) (t : TaskState) :
    ((Function.update tasks i t) j).offsetSent
      = if j = i then t.offsetSent else (tasks j).offsetSent := by
  by_cases h : j = i
  · subst h; rw [Function.update_same, if_pos rfl]
  · rw [Function.update_noteq h, if_neg h]

theorem finalize_done (now : PyStr) (d d2 : DiskState) (sess : UploadSession) (p : PyStr)
    (h : UploadManager.finalize now d sess = some (d2, p)) : d2.done.isSome = true := by
  unfold UploadManager.finalize at h
  cases hp : d.part with
  | none => rw [hp] at h; exact absurd h (by simp)
  | some bytes =>
    rw [hp] at h
    simp only [Option.some.injEq, Prod.mk.injEq] at h
    rw [← h.1]
    rfl

theorem finishUpd_of_done (now : PyStr) (d : DiskState) (sess : UploadSession)
    (h : d.done.isSome = true) : finishUpd now d sess = (d, false, .finished) := by
  unfold finishUpd
  rw [if_pos h]

theorem finishUpd_flag_true (now : PyStr) (d : DiskState) (sess : UploadSession)
    (h : (finishUpd now d sess).2.1 = true) :
    d.done.isSome = false ∧ (finishUpd now d sess).1.done.isSome = true := by
  unfold finishUpd at h ⊢
  by_cases hd : d.done.isSome = true
  · rw [if_pos hd] at h; exact absurd h (by simp)
  · rw [if_neg hd] at h ⊢
    cases hf : UploadManager.finalize now d sess with
    | none =>
      rw [hf] at h
      exact Bool.noConfusion h
    | some v =>
      obtain ⟨d2, p⟩ := v
      exact ⟨Bool.eq_false_iff.mpr hd, finalize_done now d d2 sess p hf⟩

theorem finishUpd_flag_false (now : PyStr) (d : DiskState) (sess : UploadSession)
    (h : (finishUpd now d sess).2.1 = false) :
    (finishUpd now d sess).1.done = d.done := by
  unfold finishUpd at h ⊢
  by_cases hd : d.done.isSome = true
  · rw [if_pos hd]
  · rw [if_neg hd] at h ⊢
    cases hf : UploadManager.finalize now d sess with
    | none => rfl
    | some v =>
      obtain ⟨d2, p⟩ := v
      rw [hf] at h
      exact Bool.noConfusion h

theorem finishUpd_done_mono (now : PyStr) (d : DiskState) (sess : UploadSession)
    (h : d.done.isSome = true) : (finishUpd now d sess).1.done.isSome = true := by
  rw [finishUpd_of_done now d sess h]
  exact h

theorem finishUpd_phase_not_inCS (now : PyStr) (d : DiskState) (sess : UploadSession) :
    inCS (finishUpd now d sess).2.2 = false := by
  unfold finishUpd
  by_cases hd : d.done.isSome = true
  · rw [if_pos hd]; rfl
  · rw [if_neg hd]
    cases UploadManager.finalize now d sess with
    | none => rfl
    | some v => rfl

theorem keep_inv1 (s : CState) (i : Fin 2) (t : TaskState)
    (hiCS : inCS (s.tasks i).phase = true)
    (h1 : ∀ j, inCS (s.tasks j).phase = true → s.lockHeld = some j) :
    ∀ j, inCS ((Function.update s.tasks i t) j).phase = true → s.lockHeld = some j := by
  intro j hj
  rw [upd_phase] at hj
  by_cases hji : j = i
  · subst hji; exact h1 j hiCS
  · rw [if_neg hji] at hj; exact h1 j hj

theorem release_inv1 (s : CState) (i : Fin 2) (t : TaskState)
    (hiCS : inCS (s.tasks i).phase = true)
    (ht : inCS t.phase = false)
    (h1 : ∀ j, inCS (s.tasks j).phase = true → s.lockHeld = some j) :
    ∀ j, inCS ((Function.update s.tasks i t) j).phase = true →
      (none : Option (Fin 2)) = some j := by
  intro j hj
  rw [upd_phase] at hj
  by_cases hji : j = i
  · rw [if_pos hji, ht] at hj; exact Bool.noConfusion hj
  · rw [if_neg hji] at hj
    have hj' := h1 j hj
    have hi' := h1 i hiCS
    rw [hj'] at hi'
    exact absurd (Option.some.inj hi') hji

theorem keepFin_inv2 (s : CState) (disk2 : DiskState) (i : Fin 2) (t : TaskState)
    (ht : t.didFinalize = (s.tasks i).didFinalize)
    (hdone : disk2.done = s.disk.done)
    (h2 : ∀ j, (s.tasks j).didFinalize = true → s.disk.done.isSome = true) :
    ∀ j, ((Function.update s.tasks i t) j).didFinalize = true →
      disk2.done.isSome = true := by
  intro j hj
  rw [upd_fin] at hj
  rw [hdone]
  by_cases hji : j = i
  · rw [if_pos hji, ht] at hj; exact h2 i hj
  · rw [if_neg hji] at hj; exact h2 j hj

theorem keepFin_inv3 (s : CState) (i : Fin 2) (t : TaskState)
    (ht : t.didFinalize = (s.tasks i).didFinalize)
    (h3 : ¬((s.tasks 0).didFinalize = true ∧ (s.tasks 1).didFinalize = true)) :
    ¬(((Function.update s.tasks i t) 0).didFinalize = true ∧
      ((Function.update s.tasks i t) 1).didFinalize = true) := by
  intro hb
  apply h3
  rw [upd_fin, upd_fin] at hb
  refine ⟨?_, ?_⟩
  · rcases hb with ⟨hb0, _⟩
    by_cases h0 : (0 : Fin 2) = i
    · rw [if_pos h0, ht] at hb0; rw [h0]; exact hb0
    · rw [if_neg h0] at hb0; exact hb0
  · rcases hb with ⟨_, hb1⟩
    by_cases hone : (1 : Fin 2) = i
    · rw [if_pos hone, ht] at hb1; rw [hone]; exact hb1
    · rw [if_neg hone] at hb1; exact hb1

/-- The invariant is preserved by every interleaved step. -/
theorem cinv_preserved (cs : Nat) (now : PyStr) (sess : UploadSession)
    {s s' : CState} (hstep : CStep cs now sess s s') (hinv : CInv s) : CInv s' := by
  obtain ⟨h1, h2, h3⟩ := hinv
  cases hstep with
  | acquire i hp hl =>
    refine ⟨fun j hj => ?_, keepFin_inv2 s s.disk i _ rfl rfl h2, keepFin_inv3 s i _ rfl h3⟩
    rw [upd_phase] at hj
    by_cases hji : j = i
    · rw [hji]
    · rw [if_neg hji] at hj
      have := h1 j hj
      rw [hl] at this
      exact absurd this (by simp)
  | probe i hp =>
    exact ⟨keep_inv1 s i _ (by rw [hp]; rfl) h1,
      keepFin_inv2 s _ i _ rfl (probeUpd_done s.disk sess) h2,
      keepFin_inv3 s i _ rfl h3⟩
  | recvChunk i r chunk srest hp hr hread =>
    exact ⟨keep_inv1 s i _ (by rw [hp]; rfl) h1,
      keepFin_inv2 s _ i _ rfl rfl h2,
      keepFin_inv3 s i _ rfl h3⟩
  | recvClose i r leftover hp hr hread =>
    exact ⟨release_inv1 s i _ (by rw [hp]; rfl) rfl h1,
      keepFin_inv2 s _ i _ rfl rfl h2,
      keepFin_inv3 s i _ rfl h3⟩
  | recvStall i r hp hr hread =>
    exact ⟨release_inv1 s i _ (by rw [hp]; rfl) rfl h1,
      keepFin_inv2 s s.disk i _ rfl rfl h2,
      keepFin_inv3 s i _ rfl h3⟩
  | sendFail i r hp =>
    exact ⟨release_inv1 s i _ (by rw [hp]; rfl) rfl h1,
      keepFin_inv2 s s.disk i _ rfl rfl h2,
      keepFin_inv3 s i _ rfl h3⟩
  | finish i hp =>
    refine ⟨release_inv1 s i _ (by rw [hp]; rfl)
        (finishUpd_phase_not_inCS now s.disk sess) h1,
      fun j hj => ?_, fun hb => ?_⟩
    · rw [upd_fin] at hj
      cases hflag : (finishUpd now s.disk sess).2.1 with
      | true => exact (finishUpd_flag_true now s.disk sess hflag).2
      | false =>
        have hdone' := finishUpd_flag_false now s.disk sess hflag
        rw [hdone']
        by_cases hji : j = i
        · rw [if_pos hji] at hj
          rw [hflag, Bool.or_false] at hj
          exact h2 i hj
        · rw [if_neg hji] at hj
          exact h2 j hj
    · rw [upd_fin, upd_fin] at hb
      cases hflag : (finishUpd now s.disk sess).2.1 with
      | false =>
        rw [hflag, Bool.or_false] at hb
        apply h3
        refine ⟨?_, ?_⟩
        · rcases hb with ⟨hb0, _⟩
          by_cases h0 : (0 : Fin 2) = i
          · rw [if_pos h0] at hb0; rw [h0]; exact hb0
          · rw [if_neg h0] at hb0; exact hb0
        · rcases hb with ⟨_, hb1⟩
          by_cases hone : (1 : Fin 2) = i
          · rw [if_pos hone] at hb1; rw [hone]; exact hb1
          · rw [if_neg hone] at hb1; exact hb1
      | true =>
        have hdn := (finishUpd_flag_true now s.disk sess hflag).1
        by_cases h0 : (0 : Fin 2) = i
        · rcases hb with ⟨_, hb1⟩
          rw [if_neg (by rw [← h0]; decide)] at hb1
          exact absurd (h2 1 hb1) (by simp [hdn])
        · rcases hb with ⟨hb0, _⟩
          rw [if_neg h0] at hb0
          exact absurd (h2 0 hb0) (by simp [hdn])

/-- C9: in every state reachable by interleaving two connections that share
an upload id, (1) the two connections never both executed `Finalize`, (2)
they are never both inside the lock-guarded critical section spanning
offset-probe through finalize, (3) a connection leaving its offset probe
reports exactly the offset computed from the disk state the earlier
connection left behind, and (4) in particular, when the earlier connection
already finalized (done marker present), the later one reports a resume
offset equal to the declared size. -/
theorem c9_same_id_connections_serialize (cs : Nat) (now : PyStr) (sess : UploadSession)
    (disk0 : DiskState) (s1 s2 : NetStream) (s : CState)
    (hreach : Relation.ReflTransGen (CStep cs now sess) (initC disk0 s1 s2) s) :
    ¬((s.tasks 0).didFinalize = true ∧ (s.tasks 1).didFinalize = true) ∧
    ¬(inCS (s.tasks 0).phase = true ∧ inCS (s.tasks 1).phase = true) ∧
    (∀ (s' : CState) (i : Fin 2), CStep cs now sess s s' →
      (s.tasks i).phase = .probing → (s'.tasks i).phase ≠ .probing →
      (s'.tasks i).offsetSent = some (probeUpd s.disk sess).2) ∧
    (∀ (s' : CState) (i : Fin 2), CStep cs now sess s s' →
      (s.tasks i).phase = .probing → s.disk.done.isSome = true →
      (s'.tasks i).phase ≠ .probing →
      (s'.tasks i).offsetSent = some sess.file_size) := by
  have hinv : CInv s := by
    induction hreach with
    | refl => exact cinv_init disk0 s1 s2
    | tail _ hstep ih => exact cinv_preserved cs now sess hstep ih
  obtain ⟨h1, h2, h3⟩ := hinv
  have hthird : ∀ (s' : CState) (i : Fin 2), CStep cs now sess s s' →
      (s.tasks i).phase = .probing → (s'.tasks i).phase ≠ .probing →
      (s'.tasks i).offsetSent = some (probeUpd s.disk sess).2 := by
    intro s' i hstep hpi hneq
    cases hstep with
    | acquire j hp hl =>
      by_cases hji : i = j
      · rw [hji, hp] at hpi; exact Phase.noConfusion hpi
      · rw [upd_phase, if_neg hji] at hneq; exact absurd hpi hneq
    | probe j hp =>
      by_cases hji : i = j
      · subst hji
        rw [upd_offset, if_pos rfl]
      · rw [upd_phase, if_neg hji] at hneq; exact absurd hpi hneq
    | recvChunk j r chunk srest hp hr hread =>
      by_cases hji : i = j
      · rw [hji, hp] at hpi; exact Phase.noConfusion hpi
      · rw [upd_phase, if_neg hji] at hneq; exact absurd hpi hneq
    | recvClose j r leftover hp hr hread =>
      by_cases hji : i = j
      · rw [hji, hp] at hpi; exact Phase.noConfusion hpi
      · rw [upd_phase, if_neg hji] at hneq; exact absurd hpi hneq
    | recvStall j r hp hr hread =>
      by_cases hji : i = j
      · rw [hji, hp] at hpi; exact Phase.noConfusion hpi
      · rw [upd_phase, if_neg hji] at hneq; exact absurd hpi hneq
    | sendFail j r hp =>
      by_cases hji : i = j
      · rw [hji, hp] at hpi; exact Phase.noConfusion hpi
      · rw [upd_phase, if_neg hji] at hneq; exact absurd hpi hneq
    | finish j hp =>
      by_cases hji : i = j
      · rw [hji, hp] at hpi; exact Phase.noConfusion hpi
      · rw [upd_phase, if_neg hji] at hneq; exact absurd hpi hneq
  refine ⟨h3, ?_, hthird, ?_⟩
  · rintro ⟨ha, hb⟩
    have e0 := h1 0 ha
    have e1 := h1 1 hb
    rw [e0] at e1
    exact absurd (Option.some.inj e1) (by decide)
  · intro s' i hstep hpi hdone hneq
    have h := hthird s' i hstep hpi hneq
    rw [probeUpd_of_done s.disk sess hdone] at h
    exact h

/-- Witness for `c9_same_id_connections_serialize` at the initial state of
two fresh connections for session `/r`-`c`-`f`-`u` of size 3. -/
theorem c9_same_id_connections_serialize_witness :
    ¬(((initC ⟨none, none, []⟩ ⟨[7, 8, 9], .closed⟩ ⟨[7, 8, 9], .closed⟩).tasks 0).didFinalize = true ∧
      ((initC ⟨none, none, []⟩ ⟨[7, 8, 9], .closed⟩ ⟨[7, 8, 9], .closed⟩).tasks 1).didFinalize = true) ∧
    ¬(inCS ((initC ⟨none, none, []⟩ ⟨[7, 8, 9], .closed⟩ ⟨[7, 8, 9], .closed⟩).tasks 0).phase = true ∧
      inCS ((initC ⟨none, none, []⟩ ⟨[7, 8, 9], .closed⟩ ⟨[7, 8, 9], .closed⟩).tasks 1).phase = true) ∧
    (∀ (s' : CState) (i : Fin 2),
      CStep 4 (String.toList "T")
        (UploadSession.from_header (String.toList "/r") (String.toList "c")
          (String.toList "f") (String.toList "u") 3)
        (initC ⟨none, none, []⟩ ⟨[7, 8, 9], .closed⟩ ⟨[7, 8, 9], .closed⟩) s' →
      (((initC ⟨none, none, []⟩ ⟨[7, 8, 9], .closed⟩ ⟨[7, 8, 9], .closed⟩).tasks i).phase = .probing) →
      (s'.tasks i).phase ≠ .probing →
      (s'.tasks i).offsetSent = some (probeUpd
        (initC ⟨none, none, []⟩ ⟨[7, 8, 9], .closed⟩ ⟨[7, 8, 9], .closed⟩).disk
        (UploadSession.from_header (String.toList "/r") (String.toList "c")
          (String.toList "f") (String.toList "u") 3)).2) ∧
    (∀ (s' : CState) (i : Fin 2),
      CStep 4 (String.toList "T")
        (UploadSession.from_header (String.toList "/r") (String.toList "c")
          (String.toList "f") (String.toList "u") 3)
        (initC ⟨none, none, []⟩ ⟨[7, 8, 9], .closed⟩ ⟨[7, 8, 9], .closed⟩) s' →
      (((initC ⟨none, none, []⟩ ⟨[7, 8, 9], .closed⟩ ⟨[7, 8, 9], .closed⟩).tasks i).phase = .probing) →
      (initC ⟨none, none, []⟩ ⟨[7, 8, 9], .closed⟩ ⟨[7, 8, 9], .closed⟩).disk.done.isSome = true →
      (s'.tasks i).phase ≠ .probing →
      (s'.tasks i).offsetSent = some
        (UploadSession.from_header (String.toList "/r") (String.toList "c")
          (String.toList "f") (String.toList "u") 3).file_size) :=
  c9_same_id_connections_serialize 4 (String.toList "T")
    (UploadSession.from_header (String.toList "/r") (String.toList "c")
      (String.toList "f") (String.toList "u") 3)
    ⟨none, none, []⟩ ⟨[7, 8, 9], .closed⟩ ⟨[7, 8, 9], .closed⟩
    (initC ⟨none, none, []⟩ ⟨[7, 8, 9], .closed⟩ ⟨[7, 8, 9], .closed⟩)
    Relation.ReflTransGen.refl
